import Mathlib

/-!
Ising model on a checkerboard: the update kernel and its driver.

A shallow embedding of `src/src/Ising.js`:

* the fragment shader `IsingComputefs` (one invocation per texel per dispatch),
* the driver object `IsingExhibit` with `init`, `setTemperature`, `getTemperature`, `update`.

Conventions of the embedding.

* GLSL and JavaScript floating-point values are elements of a linear ordered field `α` with a
  floor function (`ℚ` for evaluation, `ℝ` for the statements about `exp`).
* A 32-bit float has a 24-bit significand. `float(n)` for a `uint` `n` is `float32 n`, the
  nearest value a 32-bit float holds, ties to even. A `uniform float` holds `fround v`, the
  32-bit float nearest to the number `v` supplied by the driver (values beyond the largest
  finite float do not occur: the weights lie between 0 and `2^32`).
* `uint(v)` is the integer part of a non-negative `v`, reduced modulo `2^32`; `int(v)` of a spin
  is its integer part.
* JavaScript arithmetic on doubles (the formula of the weights) is exact arithmetic in `α`.
* `uint` arithmetic is arithmetic on `Nat` reduced modulo `2^32 = 4294967296`.
* `Math.exp` and `Math.random` are parameters.
* A fragment is identified by its pixel coordinates `(x, y)`, so that
  `gl_FragCoord.xy = (x + 0.5, y + 0.5)` and `int(resolution.x * uv.x) = x`.
-/

namespace Ising

/-- One RGBA texel of the floating-point texture `textureSpin`: the red channel holds the spin,
the green channel the state of the random number generator of the cell. -/
structure Texel (α : Type) where
  r : α
  g : α
  b : α
  a : α

/-- A texture, addressed by pixel coordinates. Only the texels with both coordinates below the
resolution belong to the grid. -/
abbrev Texture (α : Type) := Nat → Nat → Texel α

/-- Texture coordinates wrap around (`THREE.RepeatWrapping` on both axes). -/
def wrap (resolution : Nat) (i : Int) : Nat := (i % (resolution : Int)).toNat

/-- Nearest-texel lookup `texture2D(textureSpin, uv)` at the texel `(x, y)`, with wrap-around. -/
def texture2D {α : Type} (textureSpin : Texture α) (resolution : Nat) (x y : Int) : Texel α :=
  textureSpin (wrap resolution x) (wrap resolution y)

/-- The checkerboard colour `(int(resolution.x*uv.x) + int(resolution.y*uv.y)) & 1`
of the fragment at pixel `(x, y)`. -/
def fragColor (x y : Nat) : Nat := (x + y) &&& 1

/-- The natural number `n` rounded to a multiple of `2^k`, to the nearest one and to the even
quotient on a tie. -/
def roundEven (k n : Nat) : Nat :=
  let q := n / 2 ^ k
  let r := n % 2 ^ k
  (if 2 ^ (k - 1) < r ∨ (r = 2 ^ (k - 1) ∧ q % 2 = 1) then q + 1 else q) * 2 ^ k

/-- The conversion `float(n)` of a `uint` to a 32-bit float, as the value of the result: `n` is
kept when it has at most 24 significant bits and is rounded to 24 significant bits otherwise. -/
def float32 (n : Nat) : Nat := roundEven (Nat.log2 n - 23) n

/-- The number `y >= 0` rounded to the nearest integer, to the even one on a tie. -/
def roundHalfEven {α : Type} [LinearOrderedField α] [FloorSemiring α] (y : α) : Nat :=
  let q := ⌊y⌋₊
  if 1 / 2 < y - q ∨ (y - q = 1 / 2 ∧ q % 2 = 1) then q + 1 else q

/-- The 32-bit float nearest to `x` (`Math.fround`), as stored in a `Float32Array` and read
from a `uniform float`: the unit in the last place is `2^(e-23)` with `e` the binary exponent
of `x`, not below -126. -/
def fround {α : Type} [LinearOrderedField α] [FloorSemiring α] (x : α) : α :=
  let e : Int := max (Int.log 2 |x|) (-126)
  let ulp : α := 2 ^ (e - 23)
  let m : α := (roundHalfEven (|x| / ulp) : α) * ulp
  if x < 0 then -m else m

/-- The conversion `uint(v)` of a float to a 32-bit unsigned integer. -/
def uint {α : Type} [LinearOrderedField α] [FloorSemiring α] (v : α) : Nat :=
  ⌊v⌋₊ % 4294967296

/-- The fragment shader `IsingComputefs`, run for the fragment at pixel `(x, y)`; the result is
`gl_FragColor`. -/
def IsingComputefs {α : Type} [LinearOrderedField α] [FloorSemiring α]
    (resolution : Nat) (BoltzmannWeights : List α) (checkerboardColor : Nat)
    (textureSpin : Texture α) (x y : Nat) : Texel α :=
  let spin : α := (texture2D textureSpin resolution x y).r
  let rand : Nat := uint (texture2D textureSpin resolution x y).g
  let randf : α := (float32 rand : α)
  if fragColor x y = checkerboardColor then
    let randf : α := (float32 (747796405 * rand % 4294967296) : α)
    -- up
    let neighbourSum : Nat := ⌊(texture2D textureSpin resolution x (y + 1)).r⌋₊
    -- down
    let neighbourSum : Nat := neighbourSum + ⌊(texture2D textureSpin resolution x (y - 1)).r⌋₊
    -- left
    let neighbourSum : Nat := neighbourSum + ⌊(texture2D textureSpin resolution (x - 1) y).r⌋₊
    -- right
    let neighbourSum : Nat := neighbourSum + ⌊(texture2D textureSpin resolution (x + 1) y).r⌋₊
    let spin : α := if randf < fround (BoltzmannWeights.getD neighbourSum 0) then 0 else 1
    ⟨spin, randf, 0, 1⟩
  else
    ⟨spin, randf, 0, 1⟩

/-- The uniforms of the compute shader that the driver sets (`spinUniforms`). -/
structure SpinUniforms (α : Type) where
  temperature : α
  checkerboardColor : Nat
  BoltzmannWeights : List α

/-- The state of an `IsingExhibit` that the simulation uses: the resolution, the uniforms and the
current render target of the variable `textureSpin`. -/
structure IsingExhibit (α : Type) where
  IsingResolution : Nat
  spinUniforms : SpinUniforms α
  textureSpin : Texture α

/-- The uniforms after `setTemperature(temperature)`: the temperature is stored and the five
Boltzmann weights are recomputed from the stored value. There is no other statement in the
body, in particular no check of the argument. The entries are the values of the formula; their
rounding to 32-bit floats is applied by `fround` where the shader reads the uniform. -/
def setTemperatureUniforms {α : Type} [Field α] (exp : α → α)
    (spinUniforms : SpinUniforms α) (temperature : α) : SpinUniforms α :=
  let stored : SpinUniforms α :=
    ⟨temperature, spinUniforms.checkerboardColor, spinUniforms.BoltzmannWeights⟩
  let BoltzmannWeights : List α :=
    (List.range 5).map fun i =>
      let nbSpinSum : α := 2 * (i : α) - 4
      4294967295 / (1 + exp (2 * nbSpinSum / stored.temperature))
  ⟨stored.temperature, stored.checkerboardColor, BoltzmannWeights⟩

/-- The method `setTemperature`. -/
def setTemperature {α : Type} [Field α] (exp : α → α)
    (e : IsingExhibit α) (temperature : α) : IsingExhibit α :=
  ⟨e.IsingResolution, setTemperatureUniforms exp e.spinUniforms temperature, e.textureSpin⟩

/-- The method `getTemperature`. -/
def getTemperature {α : Type} (e : IsingExhibit α) : α :=
  e.spinUniforms.temperature

/-- The initial texture written by `init`: texel number `k/4 = y * resolution + x` takes two
successive values of `Math.random()`, the first rounded to a spin, the second scaled to a seed;
both are stored in a `Float32Array`. -/
def initialSpin {α : Type} [LinearOrderedField α] [FloorSemiring α]
    (resolution : Nat) (random : Nat → α) : Texture α :=
  fun x y =>
    let k := y * resolution + x
    ⟨fround (⌊random (2 * k) + 1 / 2⌋₊ : α), fround (random (2 * k + 1) * 65536), 0, 1⟩

/-- The method `init` of `new IsingExhibit(resolution, ..)`, restricted to the compute side. -/
def init {α : Type} [LinearOrderedField α] [FloorSemiring α] (exp : α → α)
    (resolution : Nat) (random : Nat → α) : IsingExhibit α :=
  let e : IsingExhibit α := ⟨resolution, ⟨2.27, 1, []⟩, initialSpin resolution random⟩
  setTemperature exp e 2.27

/-- One call of `IsingGPUCompute.compute()`: the shader runs once for every fragment, all
invocations read the current render target and the results form the next one. -/
def compute {α : Type} [LinearOrderedField α] [FloorSemiring α]
    (e : IsingExhibit α) : IsingExhibit α :=
  ⟨e.IsingResolution, e.spinUniforms,
    fun x y => IsingComputefs e.IsingResolution e.spinUniforms.BoltzmannWeights
      e.spinUniforms.checkerboardColor e.textureSpin x y⟩

/-- The two statements `spinUniforms.checkerboardColor.value = c; IsingGPUCompute.compute();`. -/
def dispatch {α : Type} [LinearOrderedField α] [FloorSemiring α]
    (c : Nat) (e : IsingExhibit α) : IsingExhibit α :=
  compute ⟨e.IsingResolution,
    ⟨e.spinUniforms.temperature, c, e.spinUniforms.BoltzmannWeights⟩, e.textureSpin⟩

/-- The method `update(steps)`: the loop body runs `steps` times, each time a dispatch for
colour 0 followed by a dispatch for colour 1. -/
def update {α : Type} [LinearOrderedField α] [FloorSemiring α] :
    Nat → IsingExhibit α → IsingExhibit α
  | 0, e => e
  | steps + 1, e => update steps (dispatch 1 (dispatch 0 e))

/-- The state of the random number generator of a texel, as the shader reads it:
`uint(texture2D(textureSpin, uv).g)`. -/
def rngState {α : Type} [LinearOrderedField α] [FloorSemiring α] (t : Texel α) : Nat :=
  uint t.g

/-- The generator state of the texel is a value that a 32-bit float holds exactly, as is the
case for every texel of a floating-point texture. -/
def Float32State {α : Type} [LinearOrderedField α] [FloorSemiring α] (t : Texel α) : Prop :=
  float32 (rngState t) = rngState t

/-- The four texels whose spin the shader adds up for the fragment `(x, y)`:
up, down, left, right. -/
def neighbours (resolution x y : Nat) : List (Nat × Nat) :=
  [ (wrap resolution x, wrap resolution (y + 1)),
    (wrap resolution x, wrap resolution (y - 1)),
    (wrap resolution (x - 1), wrap resolution y),
    (wrap resolution (x + 1), wrap resolution y) ]

/-- The sum of the spins of the four toroidal neighbours of the cell `(x, y)` in the texture:
up `(x, (y+1) mod N)`, down `(x, (y-1) mod N)`, left `((x-1) mod N, y)`, right `((x+1) mod N, y)`. -/
def neighbourSum {α : Type} [LinearOrderedField α] [FloorSemiring α]
    (resolution : Nat) (textureSpin : Texture α) (x y : Nat) : Nat :=
  ⌊(textureSpin x ((y + 1) % resolution)).r⌋₊
    + ⌊(textureSpin x ((y + resolution - 1) % resolution)).r⌋₊
    + ⌊(textureSpin ((x + resolution - 1) % resolution) y).r⌋₊
    + ⌊(textureSpin ((x + 1) % resolution) y).r⌋₊

/-- A texture used for evaluation: every spin is 0 and every generator state is `s`. -/
def constTexture (s : ℚ) : Texture ℚ := fun _ _ => ⟨0, s, 0, 1⟩

/-- The sequence of target colours of `steps` sweeps: 0, 1 repeated `steps` times. -/
def sweepColors (steps : Nat) : List Nat := (List.replicate steps [0, 1]).flatten

/-- The dispatches for a list of target colours, run one after the other. -/
def dispatches {α : Type} [LinearOrderedField α] [FloorSemiring α]
    (colors : List Nat) (e : IsingExhibit α) : IsingExhibit α :=
  colors.foldl (fun s c => dispatch c s) e

/-- Every spin of the grid is 0 or 1. -/
def SpinsValid {α : Type} [LinearOrderedField α] (e : IsingExhibit α) : Prop :=
  ∀ i j : Nat, i < e.IsingResolution → j < e.IsingResolution →
    (e.textureSpin i j).r = 0 ∨ (e.textureSpin i j).r = 1

/-- The invariant of a cell `(x, y)` whose generator state is 0, on a grid of side `N` with the
weight table `W`. -/
def ZeroStateInv {α : Type} [LinearOrderedField α] [FloorSemiring α]
    (W : List α) (N x y : Nat) (e : IsingExhibit α) : Prop :=
  e.IsingResolution = N ∧ e.spinUniforms.BoltzmannWeights = W
    ∧ rngState (e.textureSpin x y) = 0

/-- A weight table used for evaluation: all five thresholds are `2^31`. -/
def flatWeights : List ℚ := [2147483648, 2147483648, 2147483648, 2147483648, 2147483648]

/-! ## Addressing -/

theorem fragColor_eq_mod (x y : Nat) : fragColor x y = (x + y) % 2 := by
  unfold fragColor
  exact Nat.and_one_is_mod (x + y)

theorem wrap_of_lt {resolution x : Nat} (h : x < resolution) : wrap resolution (x : Int) = x := by
  unfold wrap
  rw [Int.emod_eq_of_lt (by omega) (by omega)]
  simp

theorem wrap_succ (resolution x : Nat) : wrap resolution ((x : Int) + 1) = (x + 1) % resolution := by
  unfold wrap
  have h : ((x : Int) + 1) % (resolution : Int) = (((x + 1) % resolution : Nat) : Int) := by
    push_cast
    rfl
  rw [h]
  exact Int.toNat_natCast _

theorem wrap_pred {resolution x : Nat} (h : x < resolution) :
    wrap resolution ((x : Int) - 1) = (x + resolution - 1) % resolution := by
  unfold wrap
  have h1 : ((x : Int) - 1) % (resolution : Int) = ((x : Int) - 1 + resolution) % resolution := by
    simp
  have h2 : (x : Int) - 1 + resolution = ((x + resolution - 1 : Nat) : Int) := by
    omega
  rw [h1, h2]
  have h3 : (((x + resolution - 1 : Nat) : Int)) % (resolution : Int)
      = (((x + resolution - 1) % resolution : Nat) : Int) := by
    push_cast
    rfl
  rw [h3]
  exact Int.toNat_natCast _

theorem texture2D_self {α : Type} (textureSpin : Texture α) {resolution x y : Nat}
    (hx : x < resolution) (hy : y < resolution) :
    texture2D textureSpin resolution x y = textureSpin x y := by
  unfold texture2D
  rw [wrap_of_lt hx, wrap_of_lt hy]

/-! ## Rounding to 32-bit floats -/

theorem roundEven_zero (n : Nat) : roundEven 0 n = n := by
  simp [roundEven, Nat.mod_one]

theorem log2_eq_of_bounds {n m : Nat} (h1 : 2 ^ m ≤ n) (h2 : n < 2 ^ (m + 1)) : Nat.log2 n = m := by
  have hn : n ≠ 0 := by
    have := Nat.two_pow_pos m
    omega
  have ha : m ≤ Nat.log2 n := (Nat.le_log2 hn).2 h1
  have hb : Nat.log2 n < m + 1 := (Nat.log2_lt hn).2 h2
  omega

theorem float32_of_lt {n : Nat} (h : n < 16777216) : float32 n = n := by
  unfold float32
  have hk : Nat.log2 n - 23 = 0 := by
    rcases Nat.eq_zero_or_pos n with h0 | h0
    · subst h0; rw [Nat.log2_zero]
    · have : Nat.log2 n < 24 := (Nat.log2_lt (by omega)).2 (by norm_num; exact h)
      omega
  rw [hk, roundEven_zero]

theorem float32_of_bounds {n k : Nat} (h1 : 2 ^ (23 + k) ≤ n) (h2 : n < 2 ^ (24 + k)) :
    float32 n = roundEven k n := by
  unfold float32
  have : Nat.log2 n = 23 + k := log2_eq_of_bounds h1 (by rw [show 23 + k + 1 = 24 + k by omega]; exact h2)
  rw [this, show 23 + k - 23 = k by omega]

theorem roundEven_dvd (k n : Nat) : 2 ^ k ∣ roundEven k n :=
  Dvd.intro_left _ rfl

theorem roundEven_of_dvd {k n : Nat} (h : 2 ^ k ∣ n) : roundEven k n = n := by
  have hr : n % 2 ^ k = 0 := Nat.mod_eq_zero_of_dvd h
  have hp : 0 < 2 ^ (k - 1) := Nat.two_pow_pos _
  unfold roundEven
  simp only [hr]
  rw [if_neg (by omega)]
  exact Nat.div_mul_cancel h

theorem roundEven_near {k n : Nat} (hk : 1 ≤ k) :
    roundEven k n ≤ n + 2 ^ (k - 1) ∧ n ≤ roundEven k n + 2 ^ (k - 1) := by
  have hP : 2 ^ k = 2 * 2 ^ (k - 1) := by
    rw [← pow_succ']; congr 1; omega
  have hdm := Nat.div_add_mod n (2 ^ k)
  have hlt := Nat.mod_lt n (show 0 < 2 ^ k from Nat.two_pow_pos _)
  unfold roundEven
  simp only
  split_ifs with h
  · rw [Nat.add_mul, Nat.one_mul, Nat.mul_comm]
    generalize 2 ^ k * (n / 2 ^ k) = A at *
    generalize n % 2 ^ k = r at *
    generalize 2 ^ (k - 1) = H at *
    generalize 2 ^ k = P at *
    omega
  · rw [Nat.mul_comm]
    generalize 2 ^ k * (n / 2 ^ k) = A at *
    generalize n % 2 ^ k = r at *
    generalize 2 ^ (k - 1) = H at *
    generalize 2 ^ k = P at *
    omega

theorem roundEven_bounds {k n : Nat} (h1 : 2 ^ (23 + k) ≤ n) (h2 : n < 2 ^ (24 + k)) :
    2 ^ (23 + k) ≤ roundEven k n ∧ roundEven k n ≤ 2 ^ (24 + k) := by
  have hP : 0 < 2 ^ k := Nat.two_pow_pos _
  have hq1 : 2 ^ 23 ≤ n / 2 ^ k := by
    rw [Nat.le_div_iff_mul_le hP, ← pow_add]; exact h1
  have hq2 : n / 2 ^ k < 2 ^ 24 := by
    rw [Nat.div_lt_iff_lt_mul hP, ← pow_add]; exact h2
  unfold roundEven
  simp only
  rw [pow_add, pow_add]
  constructor
  · apply Nat.mul_le_mul_right
    split_ifs <;> omega
  · apply Nat.mul_le_mul_right
    split_ifs <;> omega

theorem mlcg_fixed_multiple (s : Nat) (h : 747796405 * s % 4294967296 = s) :
    s % 1073741824 = 0 := by
  have h1 := Nat.mod_add_div (747796405 * s) 4294967296
  rw [h] at h1
  have h2 : 186949101 * s = 1073741824 * (747796405 * s / 4294967296) := by linarith
  have h3 : 1073741824 ∣ 186949101 * s := ⟨_, h2⟩
  have h4 : Nat.Coprime 1073741824 186949101 := by norm_num
  exact Nat.mod_eq_zero_of_dvd (h4.dvd_of_dvd_mul_left h3)

theorem exists_exponent {p : Nat} (h1 : 16777216 ≤ p) (h2 : p < 4294967296) :
    ∃ k, 1 ≤ k ∧ k ≤ 8 ∧ 2 ^ (23 + k) ≤ p ∧ p < 2 ^ (24 + k) := by
  have hp : p ≠ 0 := by omega
  have ha : 24 ≤ Nat.log2 p := (Nat.le_log2 hp).2 (by norm_num; exact h1)
  have hb : Nat.log2 p < 32 := (Nat.log2_lt hp).2 (by norm_num; exact h2)
  refine ⟨Nat.log2 p - 23, by omega, by omega, ?_, ?_⟩
  · rw [show 23 + (Nat.log2 p - 23) = Nat.log2 p by omega]
    exact Nat.log2_self_le hp
  · rw [show 24 + (Nat.log2 p - 23) = Nat.log2 p + 1 by omega]
    exact Nat.lt_log2_self

theorem step_exact_of_near {k f p : Nat} (hk1 : 1 ≤ k) (hk8 : k ≤ 8)
    (hp : p = 747796405 * f % 4294967296) (hdvd : 2 ^ k ∣ f)
    (hn1 : f ≤ p + 2 ^ (k - 1)) (hn2 : p ≤ f + 2 ^ (k - 1)) : p = f := by
  obtain ⟨m, hm⟩ := hdvd
  have hdm := Nat.mod_add_div (747796405 * f) 4294967296
  rw [← hp] at hdm
  generalize 747796405 * f / 4294967296 = t at hdm
  have hP : (2 : ℤ) ^ (k + 2) = 8 * 2 ^ (k - 1) := by
    rw [show k + 2 = (k - 1) + 3 by omega, pow_add]; ring
  have hH : (0 : ℤ) < 2 ^ (k - 1) := by positivity
  have hM : (2 : ℤ) ^ (k + 2) ∣ 4294967296 := by
    have : (4294967296 : ℤ) = 2 ^ 32 := by norm_num
    rw [this]
    exact pow_dvd_pow 2 (by omega)
  have hF : (2 : ℤ) ^ (k + 2) ∣ 747796404 * (f : ℤ) := by
    refine ⟨186949101 * (m : ℤ), ?_⟩
    rw [hm]; push_cast; ring
  have hc : (p : ℤ) + 4294967296 * (t : ℤ) = 747796405 * (f : ℤ) := by exact_mod_cast hdm
  have hz : ((p : ℤ) - f) = 747796404 * (f : ℤ) - 4294967296 * (t : ℤ) := by linarith
  have hD : (2 : ℤ) ^ (k + 2) ∣ (p : ℤ) - f := by
    rw [hz]
    exact dvd_sub hF (Dvd.dvd.mul_right hM _)
  have habs : |(p : ℤ) - f| < 2 ^ (k + 2) := by
    rw [hP, abs_lt]
    have e1 : ((f : ℤ)) ≤ p + 2 ^ (k - 1) := by exact_mod_cast hn1
    have e2 : ((p : ℤ)) ≤ f + 2 ^ (k - 1) := by exact_mod_cast hn2
    constructor <;> linarith
  have h0 := Int.eq_zero_of_abs_lt_dvd hD habs
  have h1 : (p : ℤ) = f := by linarith
  exact_mod_cast h1

theorem float32_step_fixed (s : Nat)
    (h : float32 (747796405 * s % 4294967296) % 4294967296 = s) : s % 1073741824 = 0 := by
  have hpM : 747796405 * s % 4294967296 < 4294967296 := Nat.mod_lt _ (by norm_num)
  rcases Nat.lt_or_ge (747796405 * s % 4294967296) 16777216 with hlt | hge
  · rw [float32_of_lt hlt, Nat.mod_eq_of_lt hpM] at h
    exact mlcg_fixed_multiple s h
  · obtain ⟨k, hk1, hk8, hb1, hb2⟩ := exists_exponent hge hpM
    rw [float32_of_bounds hb1 hb2] at h
    obtain ⟨hlo, hhi⟩ := roundEven_bounds hb1 hb2
    obtain ⟨hn1, hn2⟩ := roundEven_near (n := 747796405 * s % 4294967296) hk1
    have hdvd := roundEven_dvd k (747796405 * s % 4294967296)
    have hle : 2 ^ (24 + k) ≤ 2 ^ 32 := Nat.pow_le_pow_right (by decide) (by omega)
    rcases Nat.lt_or_ge (roundEven k (747796405 * s % 4294967296)) 4294967296 with hf | hf
    · rw [Nat.mod_eq_of_lt hf] at h
      rw [h] at hn1 hn2 hdvd
      have := step_exact_of_near hk1 hk8 rfl hdvd hn1 hn2
      exact mlcg_fixed_multiple s this
    · have hf2 : roundEven k (747796405 * s % 4294967296) = 4294967296 := by
        norm_num at hle
        omega
      rw [hf2] at h
      rw [← h]

theorem float32_idem {n : Nat} (hn : n < 4294967296) :
    float32 (float32 n % 4294967296) = float32 n % 4294967296 := by
  rcases Nat.lt_or_ge n 16777216 with hlt | hge
  · rw [float32_of_lt hlt, Nat.mod_eq_of_lt hn, float32_of_lt hlt]
  · obtain ⟨k, hk1, hk8, hb1, hb2⟩ := exists_exponent hge hn
    rw [float32_of_bounds hb1 hb2]
    obtain ⟨hlo, hhi⟩ := roundEven_bounds hb1 hb2
    have hdvd := roundEven_dvd k n
    have hle : 2 ^ (24 + k) ≤ 2 ^ 32 := Nat.pow_le_pow_right (by decide) (by omega)
    generalize roundEven k n = f at *
    rcases Nat.lt_or_ge f (2 ^ (24 + k)) with hf | hf
    · have hfM : f < 4294967296 := by norm_num at hle; omega
      rw [Nat.mod_eq_of_lt hfM, float32_of_bounds hlo hf, roundEven_of_dvd hdvd]
    · have hf2 : f = 2 ^ (24 + k) := by omega
      rcases Nat.lt_or_ge k 8 with hk | hk
      · have hfM : f < 4294967296 := by
          rw [hf2]
          calc 2 ^ (24 + k) < 2 ^ 32 := Nat.pow_lt_pow_right (by decide) (by omega)
            _ = 4294967296 := by norm_num
        rw [Nat.mod_eq_of_lt hfM]
        have hb1' : 2 ^ (23 + (k + 1)) ≤ f := by
          rw [hf2, show 23 + (k + 1) = 24 + k by omega]
        have hb2' : f < 2 ^ (24 + (k + 1)) := by
          rw [hf2]; exact Nat.pow_lt_pow_right (by decide) (by omega)
        rw [float32_of_bounds hb1' hb2']
        apply roundEven_of_dvd
        rw [hf2]
        exact pow_dvd_pow 2 (by omega)
      · have hk' : k = 8 := by omega
        subst hk'
        rw [hf2]
        norm_num
        exact float32_of_lt (by norm_num)

section Fround

variable {α : Type} [LinearOrderedField α] [FloorSemiring α]

theorem roundHalfEven_of_lt_half {y : α} (h : y < 1 / 2) : roundHalfEven y = 0 := by
  have hf : ⌊y⌋₊ = 0 := Nat.floor_eq_zero.2 (by linarith)
  unfold roundHalfEven
  simp only [hf, Nat.cast_zero, sub_zero]
  rw [if_neg]
  rintro (h1 | ⟨h1, _⟩)
  · linarith
  · linarith

theorem roundHalfEven_pos {y : α} (h : 1 ≤ y) : 1 ≤ roundHalfEven y := by
  have hf : 1 ≤ ⌊y⌋₊ := Nat.le_floor (by simpa using h)
  unfold roundHalfEven
  simp only
  split_ifs <;> omega

theorem fround_zero : fround (0 : α) = 0 := by
  have h : roundHalfEven (0 : α) = 0 := roundHalfEven_of_lt_half (by norm_num)
  simp [fround, h]

theorem fround_of_small {x : α} (h0 : 0 ≤ x) (h : x < 2 ^ (-150 : ℤ)) : fround x = 0 := by
  rcases h0.eq_or_lt with h0 | h0
  · rw [← h0]; exact fround_zero
  · have hlog : Int.log 2 x < -126 := by
      rw [← Int.lt_zpow_iff_log_lt (by norm_num) h0]
      refine lt_of_lt_of_le h ?_
      norm_num
    have he : max (Int.log 2 |x|) (-126) = -126 := by
      rw [abs_of_pos h0]
      exact max_eq_right hlog.le
    have hy : |x| / (2 : α) ^ ((-126 : ℤ) - 23) < 1 / 2 := by
      rw [abs_of_pos h0, div_lt_iff₀ (by positivity)]
      refine lt_of_lt_of_le h ?_
      norm_num
    unfold fround
    simp only [he, roundHalfEven_of_lt_half hy, Nat.cast_zero, zero_mul, neg_zero, ite_self]

theorem fround_pos {x : α} (h : 2 ^ (-149 : ℤ) ≤ x) : 0 < fround x := by
  have hx : 0 < x := lt_of_lt_of_le (by positivity) h
  have hulp : (2 : α) ^ (max (Int.log 2 |x|) (-126) - 23) ≤ |x| := by
    rw [abs_of_pos hx]
    rcases le_total (Int.log 2 x) (-126) with hl | hl
    · rw [max_eq_right hl]
      exact h
    · rw [max_eq_left hl]
      have h1 : ((2 : ℕ) : α) ^ Int.log 2 x ≤ x := Int.zpow_log_le_self (by norm_num) hx
      have h2 : (2 : α) ^ (Int.log 2 x - 23) ≤ (2 : α) ^ Int.log 2 x :=
        zpow_le_zpow_right₀ (by norm_num) (by omega)
      exact le_trans h2 (by simpa using h1)
  have hulp0 : (0 : α) < 2 ^ (max (Int.log 2 |x|) (-126) - 23) := by positivity
  have hy : 1 ≤ |x| / (2 : α) ^ (max (Int.log 2 |x|) (-126) - 23) := by
    rw [le_div_iff₀ hulp0, one_mul]
    exact hulp
  have hr := roundHalfEven_pos hy
  unfold fround
  simp only
  rw [if_neg (not_lt.2 hx.le)]
  have : (1 : α) ≤ (roundHalfEven (|x| / (2 : α) ^ (max (Int.log 2 |x|) (-126) - 23)) : α) := by
    exact_mod_cast hr
  positivity

theorem fround_two_pow_31 : fround (2147483648 : α) = 2147483648 := by
  have hx : (2147483648 : α) = ((2 : ℕ) : α) ^ (31 : ℤ) := by norm_num
  have hlog : Int.log 2 |(2147483648 : α)| = 31 := by
    rw [abs_of_pos (by norm_num), hx]
    exact Int.log_zpow (by norm_num) 31
  have hy : |(2147483648 : α)| / (2 : α) ^ ((31 : ℤ) - 23) = ((8388608 : ℕ) : α) := by
    rw [abs_of_pos (by norm_num)]
    norm_num
  have hr : roundHalfEven (((8388608 : ℕ) : α)) = 8388608 := by
    unfold roundHalfEven
    simp only [Nat.floor_natCast, sub_self]
    rw [if_neg]
    rintro (h1 | ⟨h1, _⟩)
    · norm_num at h1
    · norm_num at h1
  unfold fround
  simp only [hlog]
  rw [show max (31 : ℤ) (-126) = 31 by decide, hy, hr, if_neg (by norm_num)]
  norm_num

theorem roundHalfEven_natCast (n : Nat) : roundHalfEven (n : α) = n := by
  unfold roundHalfEven
  simp only [Nat.floor_natCast, sub_self]
  rw [if_neg]
  rintro (h1 | ⟨h1, _⟩)
  · norm_num at h1
  · norm_num at h1

theorem roundHalfEven_div (n k : Nat) (hk : 1 ≤ k) :
    roundHalfEven ((n : α) / 2 ^ k) * 2 ^ k = roundEven k n := by
  have hP : (0 : α) < 2 ^ k := by positivity
  have hq : ⌊(n : α) / 2 ^ k⌋₊ = n / 2 ^ k := by
    have := Nat.floor_div_eq_div (α := α) n (2 ^ k)
    simpa using this
  have hr : (n : α) / 2 ^ k - ((n / 2 ^ k : Nat) : α) = ((n % 2 ^ k : Nat) : α) / 2 ^ k := by
    have h := Nat.div_add_mod n (2 ^ k)
    have h' : (n : α) = 2 ^ k * ((n / 2 ^ k : Nat) : α) + ((n % 2 ^ k : Nat) : α) := by
      exact_mod_cast h.symm
    field_simp
    linarith
  have hH : (2 : α) ^ k = 2 * ((2 ^ (k - 1) : Nat) : α) := by
    push_cast
    rw [← pow_succ']; congr 1; omega
  have c1 : (1 / 2 < ((n % 2 ^ k : Nat) : α) / 2 ^ k) ↔ 2 ^ (k - 1) < n % 2 ^ k := by
    rw [lt_div_iff₀ hP, hH]
    constructor
    · intro h
      have : ((2 ^ (k - 1) : Nat) : α) < ((n % 2 ^ k : Nat) : α) := by linarith
      exact_mod_cast this
    · intro h
      have : ((2 ^ (k - 1) : Nat) : α) < ((n % 2 ^ k : Nat) : α) := by exact_mod_cast h
      linarith
  have c2 : (((n % 2 ^ k : Nat) : α) / 2 ^ k = 1 / 2) ↔ n % 2 ^ k = 2 ^ (k - 1) := by
    rw [div_eq_iff hP.ne.symm, hH]
    constructor
    · intro h
      have : ((n % 2 ^ k : Nat) : α) = ((2 ^ (k - 1) : Nat) : α) := by linarith
      exact_mod_cast this
    · intro h
      rw [h]; ring
  unfold roundHalfEven roundEven
  simp only [hq, hr, c1, c2]

/-- The conversion `float32` of a `uint` is the rounding `fround` to a 32-bit float, applied to
a natural number. -/
theorem fround_natCast (n : Nat) : fround (n : α) = (float32 n : α) := by
  rcases Nat.eq_zero_or_pos n with h0 | h0
  · subst h0
    have h : roundHalfEven (0 : α) = 0 := by
      have := roundHalfEven_natCast (α := α) 0
      simpa using this
    simp [fround, float32, roundEven_zero, h]
  have habs : |(n : α)| = n := abs_of_nonneg (Nat.cast_nonneg n)
  have hlog : Int.log 2 (n : α) = (Nat.log2 n : ℤ) := by
    rw [Int.log_natCast, Nat.log2_eq_log_two]
  have hmax : max ((Nat.log2 n : ℤ)) (-126) = Nat.log2 n := max_eq_left (by omega)
  have hneg : ¬ (n : α) < 0 := not_lt.2 (Nat.cast_nonneg n)
  unfold fround
  simp only [habs, hlog, hmax, if_neg hneg]
  rcases Nat.lt_or_ge (Nat.log2 n) 24 with hL | hL
  · -- small: exact
    have hf : float32 n = n := by
      unfold float32
      rw [show Nat.log2 n - 23 = 0 by omega, roundEven_zero]
    have hu : (2 : α) ^ ((Nat.log2 n : ℤ) - 23) = ((2 ^ (23 - Nat.log2 n) : Nat) : α)⁻¹ := by
      rw [show ((Nat.log2 n : ℤ) - 23) = -((23 - Nat.log2 n : Nat) : ℤ) by omega, zpow_neg,
        zpow_natCast]
      push_cast; rfl
    have hy : (n : α) / (2 : α) ^ ((Nat.log2 n : ℤ) - 23)
        = ((n * 2 ^ (23 - Nat.log2 n) : Nat) : α) := by
      rw [hu, div_inv_eq_mul]; push_cast; rfl
    rw [hy, roundHalfEven_natCast, hu, hf]
    push_cast
    have : (0 : α) < 2 ^ (23 - Nat.log2 n) := by positivity
    field_simp
  · have hu : (2 : α) ^ ((Nat.log2 n : ℤ) - 23) = (2 : α) ^ (Nat.log2 n - 23) := by
      rw [show ((Nat.log2 n : ℤ) - 23) = ((Nat.log2 n - 23 : Nat) : ℤ) by omega, zpow_natCast]
    rw [hu]
    have := roundHalfEven_div (α := α) n (Nat.log2 n - 23) (by omega)
    unfold float32
    rw [← this]
    push_cast
    rfl
end Fround

theorem exp_160_gt : (2 : ℝ) ^ (182 : ℕ) < Real.exp 160 := by
  have h1 : Real.exp 160 = Real.exp 1 ^ (160 : ℕ) := by
    rw [← Real.exp_nat_mul]; norm_num
  have h2 : (2.7 : ℝ) < Real.exp 1 := lt_trans (by norm_num) Real.exp_one_gt_d9
  have h3 : (2.7 : ℝ) ^ (160 : ℕ) < Real.exp 1 ^ (160 : ℕ) :=
    pow_lt_pow_left₀ h2 (by norm_num) (by norm_num)
  rw [h1]
  refine lt_trans ?_ h3
  norm_num

theorem exp_115_lt : Real.exp 115 < (2 : ℝ) ^ (170 : ℕ) := by
  have h1 : Real.exp 115 = Real.exp 1 ^ (115 : ℕ) := by
    rw [← Real.exp_nat_mul]; norm_num
  have h2 : Real.exp 1 < (2.72 : ℝ) := lt_trans Real.exp_one_lt_d9 (by norm_num)
  have h3 : Real.exp 1 ^ (115 : ℕ) < (2.72 : ℝ) ^ (115 : ℕ) :=
    pow_lt_pow_left₀ h2 (Real.exp_pos 1).le (by norm_num)
  rw [h1]
  refine lt_trans h3 ?_
  norm_num

theorem weight_underflow :
    (4294967295 : ℝ) / (1 + Real.exp (2 * (2 * ((4 : Nat) : ℝ) - 4) / 0.05)) < 2 ^ (-150 : ℤ) := by
  have harg : 2 * (2 * ((4 : Nat) : ℝ) - 4) / 0.05 = 160 := by norm_num
  rw [harg, div_lt_iff₀ (by positivity)]
  have h := exp_160_gt
  have h2 : (4294967295 : ℝ) < 2 ^ (-150 : ℤ) * 2 ^ (182 : ℕ) := by norm_num
  have h3 : (0 : ℝ) < 2 ^ (-150 : ℤ) := by positivity
  nlinarith

theorem weight_normal (t : ℝ) (ht : 0.07 ≤ t) {i : Nat} (hi : i < 5) :
    (2 : ℝ) ^ (-149 : ℤ) ≤ 4294967295 / (1 + Real.exp (2 * (2 * (i : ℝ) - 4) / t)) := by
  have ht0 : 0 < t := lt_of_lt_of_le (by norm_num) ht
  have hi' : (i : ℝ) ≤ 4 := by exact_mod_cast Nat.le_of_lt_succ hi
  have harg : 2 * (2 * (i : ℝ) - 4) / t ≤ 115 := by
    rw [div_le_iff₀ ht0]
    nlinarith
  have hexp : Real.exp (2 * (2 * (i : ℝ) - 4) / t) < 2 ^ (170 : ℕ) :=
    lt_of_le_of_lt (Real.exp_le_exp.mpr harg) exp_115_lt
  have hpos : 0 < 1 + Real.exp (2 * (2 * (i : ℝ) - 4) / t) := by
    have := Real.exp_pos (2 * (2 * (i : ℝ) - 4) / t)
    linarith
  rw [le_div_iff₀ hpos]
  have h3 : (0 : ℝ) < 2 ^ (-149 : ℤ) := by positivity
  have h4 : (2 : ℝ) ^ (-149 : ℤ) * (1 + 2 ^ (170 : ℕ)) ≤ 4294967295 := by norm_num
  nlinarith

/-! ## The kernel on one fragment -/

section Kernel

variable {α : Type} [LinearOrderedField α] [FloorSemiring α]

theorem IsingComputefs_inactive (resolution : Nat) (W : List α) (c : Nat)
    (textureSpin : Texture α) {x y : Nat} (hx : x < resolution) (hy : y < resolution)
    (hc : (x + y) % 2 ≠ c) :
    IsingComputefs resolution W c textureSpin x y
      = ⟨(textureSpin x y).r, (float32 (rngState (textureSpin x y)) : α), 0, 1⟩ := by
  have hc2 : ¬ fragColor x y = c := by rw [fragColor_eq_mod]; exact hc
  simp only [IsingComputefs, if_neg hc2, texture2D_self textureSpin hx hy, rngState]

theorem IsingComputefs_active (resolution : Nat) (W : List α) (c : Nat)
    (textureSpin : Texture α) {x y : Nat} (hx : x < resolution) (hy : y < resolution)
    (hc : (x + y) % 2 = c) :
    IsingComputefs resolution W c textureSpin x y
      = ⟨if (float32 (747796405 * rngState (textureSpin x y) % 4294967296) : α)
              < fround (W.getD (neighbourSum resolution textureSpin x y) 0) then 0 else 1,
          (float32 (747796405 * rngState (textureSpin x y) % 4294967296) : α), 0, 1⟩ := by
  have hc2 : fragColor x y = c := by rw [fragColor_eq_mod]; exact hc
  have hu : texture2D textureSpin resolution x ((y : Int) + 1)
      = textureSpin x ((y + 1) % resolution) := by
    unfold texture2D; rw [wrap_of_lt hx, wrap_succ]
  have hd : texture2D textureSpin resolution x ((y : Int) - 1)
      = textureSpin x ((y + resolution - 1) % resolution) := by
    unfold texture2D; rw [wrap_of_lt hx, wrap_pred hy]
  have hl : texture2D textureSpin resolution ((x : Int) - 1) y
      = textureSpin ((x + resolution - 1) % resolution) y := by
    unfold texture2D; rw [wrap_of_lt hy, wrap_pred hx]
  have hr : texture2D textureSpin resolution ((x : Int) + 1) y
      = textureSpin ((x + 1) % resolution) y := by
    unfold texture2D; rw [wrap_of_lt hy, wrap_succ]
  simp only [IsingComputefs, if_pos hc2, texture2D_self textureSpin hx hy, rngState,
    neighbourSum, hu, hd, hl, hr]

theorem rngState_mk_natCast (r b a : α) (n : Nat) :
    rngState (⟨r, (n : α), b, a⟩ : Texel α) = n % 4294967296 := by
  simp [rngState, uint]

theorem rngState_lt (t : Texel α) : rngState t < 4294967296 :=
  Nat.mod_lt _ (by norm_num)

theorem dispatch_textureSpin (c : Nat) (e : IsingExhibit α) (x y : Nat) :
    (dispatch c e).textureSpin x y
      = IsingComputefs e.IsingResolution e.spinUniforms.BoltzmannWeights c e.textureSpin x y :=
  rfl

theorem dispatch_resolution (c : Nat) (e : IsingExhibit α) :
    (dispatch c e).IsingResolution = e.IsingResolution :=
  rfl

theorem dispatch_weights (c : Nat) (e : IsingExhibit α) :
    (dispatch c e).spinUniforms.BoltzmannWeights = e.spinUniforms.BoltzmannWeights :=
  rfl

theorem rngState_constTexture {s : Nat} (hs : s < 4294967296) (x y : Nat) :
    rngState (constTexture (s : ℚ) x y) = s := by
  simp only [constTexture]
  rw [rngState_mk_natCast, Nat.mod_eq_of_lt hs]

/-! ## C1 -/

/-- C1, as stated, fails: in a dispatch for colour 0 on a 4 x 4 grid whose cells all hold the
generator state 1, the cell `(0, 1)` of colour 1 is written back with generator state 1, not with
the advanced state 747796405. -/
theorem rng_kept_on_inactive_cell :
    (0 + 1) % 2 ≠ 0
      ∧ rngState (IsingComputefs 4 flatWeights 0 (constTexture 1) 0 1) = 1
      ∧ rngState (IsingComputefs 4 flatWeights 0 (constTexture 1) 0 1)
          ≠ 747796405 * rngState (constTexture 1 0 1) % 4294967296 := by
  have h := IsingComputefs_inactive 4 flatWeights 0 (constTexture 1)
    (show 0 < 4 by decide) (show 1 < 4 by decide) (show (0 + 1) % 2 ≠ 0 by decide)
  have h1 : rngState (constTexture 1 0 1) = 1 := by
    have := rngState_constTexture (show 1 < 4294967296 by norm_num) 0 1
    simpa using this
  rw [h, h1, float32_of_lt (by norm_num), rngState_mk_natCast]
  refine ⟨by decide, by norm_num, by norm_num⟩

/-- C1 (amended): for every cell of the grid, every target colour and every weight table, one
run of the kernel on a cell whose colour `(x + y) mod 2` is not the target colour writes back
the generator state it read (as a 32-bit float) and the spin it read: on a floating-point
texture the generator state and the spin of such a cell are unchanged. The generator state is
touched by the multiplication only in cells of the target colour. -/
theorem inactive_cell_written_back (resolution : Nat) (W : List α) (c : Nat)
    (textureSpin : Texture α) (x y : Nat) (hx : x < resolution) (hy : y < resolution)
    (hc : (x + y) % 2 ≠ c) :
    (IsingComputefs resolution W c textureSpin x y).g
        = (float32 (rngState (textureSpin x y)) : α)
      ∧ (IsingComputefs resolution W c textureSpin x y).r = (textureSpin x y).r
      ∧ (Float32State (textureSpin x y) →
          rngState (IsingComputefs resolution W c textureSpin x y)
            = rngState (textureSpin x y)) := by
  rw [IsingComputefs_inactive resolution W c textureSpin hx hy hc]
  refine ⟨rfl, rfl, ?_⟩
  intro hrep
  rw [rngState_mk_natCast, hrep, Nat.mod_eq_of_lt (rngState_lt _)]

/-! ## C2 -/

/-- C2: a cell whose colour `(x + y) mod 2` is not the target colour keeps its spin in one
dispatch, whatever the rest of the texture, its generator state and the weight table are; this
holds for the kernel run on any inputs and for a dispatch of the driver. -/
theorem spin_kept_on_inactive_cell (resolution : Nat) (W : List α) (c : Nat)
    (textureSpin : Texture α) (e : IsingExhibit α) (x y : Nat)
    (hc : (x + y) % 2 ≠ c) :
    (x < resolution → y < resolution →
        (IsingComputefs resolution W c textureSpin x y).r = (textureSpin x y).r)
      ∧ (x < e.IsingResolution → y < e.IsingResolution →
        ((dispatch c e).textureSpin x y).r = (e.textureSpin x y).r) := by
  constructor
  · intro hx hy
    rw [IsingComputefs_inactive resolution W c textureSpin hx hy hc]
  · intro hx hy
    rw [dispatch_textureSpin, IsingComputefs_inactive _ _ c e.textureSpin hx hy hc]

/-! ## C3 -/

theorem flatWeights_getD_zero : fround (flatWeights.getD 0 0) = 2147483648 := by
  simp only [flatWeights, List.getD_cons_zero]
  exact fround_two_pow_31

theorem neighbourSum_constTexture (resolution : Nat) (s : ℚ) (x y : Nat) :
    neighbourSum resolution (constTexture s) x y = 0 := by
  simp [neighbourSum, constTexture]

/-- C3: the kernel does not keep the product `747796405 * state mod 2^32`, it keeps the 32-bit
float nearest to it. On a 4 x 4 grid with every spin 0, table
`[2^31, ..]` and a dispatch for colour 0, the cell `(0, 0)` with generator state 1 is written
back with state 747796416, the 32-bit float nearest to `747796405 * 1 mod 2^32 = 747796405`;
with generator state 13122110 the product is 2147483606, below the weight `2^31`, and the
kernel writes the state `2^31` and the spin 1, because the draw it compares is the rounded
`2^31`. -/
theorem active_cell_float_rounding :
    (0 + 0) % 2 = 0
      ∧ 747796405 * rngState (constTexture 1 0 0) % 4294967296 = 747796405
      ∧ rngState (IsingComputefs 4 flatWeights 0 (constTexture 1) 0 0) = 747796416
      ∧ 747796405 * rngState (constTexture 13122110 0 0) % 4294967296 = 2147483606
      ∧ ((2147483606 : Nat) : ℚ)
          < fround (flatWeights.getD (neighbourSum 4 (constTexture 13122110) 0 0) 0)
      ∧ rngState (IsingComputefs 4 flatWeights 0 (constTexture 13122110) 0 0) = 2147483648
      ∧ (IsingComputefs 4 flatWeights 0 (constTexture 13122110) 0 0).r = 1 := by
  have h1 : rngState (constTexture 1 0 0) = 1 := by
    have := rngState_constTexture (show 1 < 4294967296 by norm_num) 0 0
    simpa using this
  have h2 : rngState (constTexture 13122110 0 0) = 13122110 := by
    have := rngState_constTexture (show 13122110 < 4294967296 by norm_num) 0 0
    simpa using this
  have hp1 : 747796405 * 1 % 4294967296 = 747796405 := by norm_num
  have hp2 : 747796405 * 13122110 % 4294967296 = 2147483606 := by norm_num
  have hf1 : float32 747796405 = 747796416 := by
    rw [float32_of_bounds (k := 6) (by norm_num) (by norm_num)]
    decide
  have hf2 : float32 2147483606 = 2147483648 := by
    rw [float32_of_bounds (k := 7) (by norm_num) (by norm_num)]
    decide
  have ha1 := IsingComputefs_active 4 flatWeights 0 (constTexture 1)
    (show 0 < 4 by decide) (show 0 < 4 by decide) (show (0 + 0) % 2 = 0 by decide)
  have ha2 := IsingComputefs_active 4 flatWeights 0 (constTexture 13122110)
    (show 0 < 4 by decide) (show 0 < 4 by decide) (show (0 + 0) % 2 = 0 by decide)
  rw [h1, hp1, hf1] at ha1
  rw [h2, hp2, hf2, neighbourSum_constTexture, flatWeights_getD_zero] at ha2
  rw [h1, h2, hp1, hp2, neighbourSum_constTexture, flatWeights_getD_zero, ha1, ha2,
    rngState_mk_natCast, rngState_mk_natCast]
  refine ⟨by decide, rfl, by norm_num, rfl, by norm_num, by norm_num, ?_⟩
  norm_num

/-! ## C4 -/

theorem rngState_dispatch (c : Nat) (e : IsingExhibit α) {x y : Nat}
    (hx : x < e.IsingResolution) (hy : y < e.IsingResolution) :
    rngState ((dispatch c e).textureSpin x y)
      = if (x + y) % 2 = c
        then float32 (747796405 * rngState (e.textureSpin x y) % 4294967296) % 4294967296
        else float32 (rngState (e.textureSpin x y)) % 4294967296 := by
  rw [dispatch_textureSpin]
  split_ifs with hc
  · rw [IsingComputefs_active _ _ c e.textureSpin hx hy hc]
    exact rngState_mk_natCast _ _ _ _
  · rw [IsingComputefs_inactive _ _ c e.textureSpin hx hy hc]
    exact rngState_mk_natCast _ _ _ _

/-- After a dispatch the generator state of every cell of the grid is a value that a 32-bit
float holds, whatever the texture was before. -/
theorem float32State_dispatch (c : Nat) (e : IsingExhibit α) {x y : Nat}
    (hx : x < e.IsingResolution) (hy : y < e.IsingResolution) :
    Float32State ((dispatch c e).textureSpin x y) := by
  unfold Float32State
  rw [rngState_dispatch c e hx hy]
  split_ifs
  · exact float32_idem (Nat.mod_lt _ (by norm_num))
  · exact float32_idem (rngState_lt _)

theorem rngState_sweep (e : IsingExhibit α) {x y : Nat}
    (hx : x < e.IsingResolution) (hy : y < e.IsingResolution)
    (hrep : Float32State (e.textureSpin x y)) :
    rngState ((update 1 e).textureSpin x y)
      = float32 (747796405 * rngState (e.textureSpin x y) % 4294967296) % 4294967296 := by
  have h1 : update 1 e = dispatch 1 (dispatch 0 e) := rfl
  have hM := rngState_lt (e.textureSpin x y)
  have hrep' : float32 (rngState (e.textureSpin x y)) = rngState (e.textureSpin x y) := hrep
  rw [h1, rngState_dispatch 1 (dispatch 0 e) hx hy, rngState_dispatch 0 e hx hy]
  rcases Nat.mod_two_eq_zero_or_one (x + y) with h | h
  · rw [if_neg (by omega), if_pos h]
    rw [float32_idem (Nat.mod_lt _ (by norm_num))]
    exact Nat.mod_mod _ _
  · rw [if_pos h, if_neg (by omega), hrep', Nat.mod_eq_of_lt hM]

theorem mlcg_multiple_fixed (s : Nat) (hs : s < 4294967296) (h : s % 1073741824 = 0) :
    747796405 * s % 4294967296 = s := by
  obtain ⟨k, hk⟩ := Nat.dvd_of_mod_eq_zero h
  subst hk
  have hk4 : k < 4 := by omega
  interval_cases k <;> norm_num

end Kernel

/-- C4, as stated, fails: after `init` with every value of `Math.random()` equal to 0 (grid of
side 4, default temperature 2.27), the cell `(0, 0)` has generator state 0 before the sweep
`update(1)` and generator state 0 after it. -/
theorem rng_state_zero_unchanged_by_sweep :
    rngState ((init Real.exp 4 (fun _ => 0)).textureSpin 0 0) = 0
      ∧ rngState ((update 1 (init Real.exp 4 (fun _ => 0))).textureSpin 0 0)
          = rngState ((init Real.exp 4 (fun _ => 0)).textureSpin 0 0) := by
  have h0 : rngState ((init Real.exp 4 (fun _ => 0)).textureSpin 0 0) = 0 := by
    simp [init, setTemperature, initialSpin, rngState, uint, fround_zero]
  have hrep : Float32State ((init Real.exp 4 (fun _ => 0)).textureSpin 0 0) := by
    unfold Float32State
    rw [h0]
    exact float32_of_lt (by norm_num)
  have h1 := rngState_sweep (init Real.exp 4 (fun _ => 0))
    (show 0 < 4 by decide) (show 0 < 4 by decide) hrep
  rw [h1, h0]
  refine ⟨rfl, ?_⟩
  rw [float32_of_lt (by norm_num)]

/-- The generator state `2^30` is kept by a sweep as well: on a 4 x 4 grid whose cells all hold
the state `2^30`, the cell `(0, 0)` holds `2^30` after `update(1)`. -/
theorem rng_state_two_pow_30_unchanged_by_sweep :
    rngState ((update 1 ⟨4, ⟨1, 1, flatWeights⟩, constTexture 1073741824⟩).textureSpin 0 0)
      = 1073741824 := by
  have hs : rngState (constTexture 1073741824 0 0) = 1073741824 := by
    have := rngState_constTexture (show 1073741824 < 4294967296 by norm_num) 0 0
    simpa using this
  have hf : float32 1073741824 = 1073741824 := by
    rw [float32_of_bounds (k := 7) (by norm_num) (by norm_num)]
    decide
  have hrep : Float32State (constTexture 1073741824 0 0) := by
    unfold Float32State
    rw [hs, hf]
  have h1 := rngState_sweep ⟨4, ⟨1, 1, flatWeights⟩, constTexture 1073741824⟩
    (show 0 < 4 by decide) (show 0 < 4 by decide) hrep
  rw [h1]
  simp only []
  rw [hs, show 747796405 * 1073741824 % 4294967296 = 1073741824 by norm_num, hf]

/-- C4 (amended): for every grid size, every grid state and every uniforms (so every
temperature), after one sweep `update(1)` the generator state of a cell of the grid differs from
its state `s` before the sweep whenever `s` is not a multiple of `2^30`, and is equal to `s`
when `s` is a multiple of `2^30` (0 among them). The cell is a texel of a floating-point
texture: `s` is a value a 32-bit float holds. -/
theorem rng_state_after_sweep {α : Type} [LinearOrderedField α] [FloorSemiring α]
    (e : IsingExhibit α) (x y : Nat)
    (hx : x < e.IsingResolution) (hy : y < e.IsingResolution)
    (hrep : Float32State (e.textureSpin x y)) :
    (rngState (e.textureSpin x y) % 1073741824 ≠ 0 →
        rngState ((update 1 e).textureSpin x y) ≠ rngState (e.textureSpin x y))
      ∧ (rngState (e.textureSpin x y) % 1073741824 = 0 →
          rngState ((update 1 e).textureSpin x y) = rngState (e.textureSpin x y)) := by
  rw [rngState_sweep e hx hy hrep]
  have hM := rngState_lt (e.textureSpin x y)
  have hrep' : float32 (rngState (e.textureSpin x y)) = rngState (e.textureSpin x y) := hrep
  refine ⟨?_, ?_⟩
  · intro h hfix
    exact h (float32_step_fixed _ hfix)
  · intro h
    rw [mlcg_multiple_fixed _ hM h, hrep', Nat.mod_eq_of_lt hM]

/-! ## The weight table and the temperature: C5, C6, C7 -/

theorem weights_eq_map {α : Type} [Field α] (exp : α → α) (u : SpinUniforms α) (t : α) :
    (setTemperatureUniforms exp u t).BoltzmannWeights
      = (List.range 5).map (fun i : Nat => 4294967295 / (1 + exp (2 * (2 * (i : α) - 4) / t))) :=
  rfl

theorem weights_getD {α : Type} [Field α] (exp : α → α) (u : SpinUniforms α) (t : α)
    {i : Nat} (hi : i < 5) :
    (setTemperatureUniforms exp u t).BoltzmannWeights.getD i 0
      = 4294967295 / (1 + exp (2 * (2 * (i : α) - 4) / t)) := by
  rw [weights_eq_map, List.getD_eq_getElem?_getD, List.getElem?_map, List.getElem?_range hi]
  rfl

theorem weight_antitone (t : ℝ) (ht : 0 < t) {i j : Nat} (hij : i ≤ j) :
    (4294967295 : ℝ) / (1 + Real.exp (2 * (2 * (j : ℝ) - 4) / t))
      ≤ 4294967295 / (1 + Real.exp (2 * (2 * (i : ℝ) - 4) / t)) := by
  have hc : (i : ℝ) ≤ (j : ℝ) := by exact_mod_cast hij
  have harg : 2 * (2 * (i : ℝ) - 4) / t ≤ 2 * (2 * (j : ℝ) - 4) / t := by
    apply div_le_div_of_nonneg_right _ ht.le
    linarith
  have hexp := Real.exp_le_exp.mpr harg
  have hpos : 0 < 1 + Real.exp (2 * (2 * (i : ℝ) - 4) / t) := by
    have := Real.exp_pos (2 * (2 * (i : ℝ) - 4) / t)
    linarith
  apply div_le_div_of_nonneg_left (by norm_num) hpos
  linarith

/-- C5: for every real temperature `t > 0` the table stored by `setTemperature` has the five
entries `weight[i] = (2^32 - 1) / (1 + exp (2 (2 i - 4) / t))`, it is non-increasing in the
index, and its middle entry is exactly half of the scale factor `2^32 - 1`, the probability
one half. -/
theorem weights_antitone_and_middle (u : SpinUniforms ℝ) (t : ℝ) (ht : 0 < t) :
    (setTemperatureUniforms Real.exp u t).BoltzmannWeights.length = 5
      ∧ (∀ i : Nat, i < 5 →
          (setTemperatureUniforms Real.exp u t).BoltzmannWeights.getD i 0
            = 4294967295 / (1 + Real.exp (2 * (2 * (i : ℝ) - 4) / t)))
      ∧ (∀ i j : Nat, i ≤ j → j < 5 →
          (setTemperatureUniforms Real.exp u t).BoltzmannWeights.getD j 0
            ≤ (setTemperatureUniforms Real.exp u t).BoltzmannWeights.getD i 0)
      ∧ (setTemperatureUniforms Real.exp u t).BoltzmannWeights.getD 2 0 = 4294967295 / 2
      ∧ (setTemperatureUniforms Real.exp u t).BoltzmannWeights.getD 2 0 / 4294967295 = 1 / 2 := by
  have h2 : (setTemperatureUniforms Real.exp u t).BoltzmannWeights.getD 2 0
      = 4294967295 / 2 := by
    rw [weights_getD Real.exp u t (show 2 < 5 by decide)]
    norm_num
  refine ⟨?_, ?_, ?_, h2, ?_⟩
  · rw [weights_eq_map]
    simp
  · intro i hi
    exact weights_getD Real.exp u t hi
  · intro i j hij hj
    rw [weights_getD Real.exp u t hj, weights_getD Real.exp u t (lt_of_le_of_lt hij hj)]
    exact weight_antitone t ht hij
  · rw [h2]
    norm_num

theorem weight_zero_differs :
    (4294967295 : ℝ) / (1 + Real.exp (2 * (2 * ((0 : Nat) : ℝ) - 4) / (-1)))
      ≠ 4294967295 / (1 + Real.exp (2 * (2 * ((0 : Nat) : ℝ) - 4) / 2.27)) := by
  intro h
  have hp1 : (0 : ℝ) < 1 + Real.exp (2 * (2 * ((0 : Nat) : ℝ) - 4) / (-1)) := by
    have := Real.exp_pos (2 * (2 * ((0 : Nat) : ℝ) - 4) / (-1))
    linarith
  have hp2 : (0 : ℝ) < 1 + Real.exp (2 * (2 * ((0 : Nat) : ℝ) - 4) / 2.27) := by
    have := Real.exp_pos (2 * (2 * ((0 : Nat) : ℝ) - 4) / 2.27)
    linarith
  rw [div_eq_div_iff hp1.ne.symm hp2.ne.symm] at h
  have h1 : Real.exp (2 * (2 * ((0 : Nat) : ℝ) - 4) / 2.27)
      = Real.exp (2 * (2 * ((0 : Nat) : ℝ) - 4) / (-1)) := by
    linarith
  have h2 := Real.exp_injective h1
  norm_num at h2

/-- C6, as stated, fails: on the state left by `init`, `setTemperature(-1)` stores the
temperature -1 (it was 2.27) and replaces the weight table by a different one. -/
theorem setTemperature_accepts_negative :
    getTemperature (init Real.exp 4 (fun _ => 0)) = 2.27
      ∧ getTemperature (setTemperature Real.exp (init Real.exp 4 (fun _ => 0)) (-1)) = -1
      ∧ (setTemperature Real.exp (init Real.exp 4 (fun _ => 0)) (-1)).spinUniforms.BoltzmannWeights
          ≠ (init Real.exp 4 (fun _ => 0)).spinUniforms.BoltzmannWeights := by
  refine ⟨rfl, rfl, ?_⟩
  intro h
  have h0 := congrArg (fun W : List ℝ => W.getD 0 0) h
  simp only [init, setTemperature] at h0
  rw [weights_getD Real.exp _ (-1) (show 0 < 5 by decide),
    weights_getD Real.exp _ 2.27 (show 0 < 5 by decide)] at h0
  exact weight_zero_differs h0

/-- C6 (amended): `setTemperature(t)` has no validation and no failure: for every `t`, the
values `t <= 0` among them, it returns a state that stores `t`, whose weight table has five
entries and depends on `t` only, and in which nothing else is changed; for `t` other than 0 the
entries are `(2^32 - 1) / (1 + exp (2 (2 i - 4) / t))`. -/
theorem setTemperature_total {α : Type} [Field α] (exp : α → α) (e : IsingExhibit α) (t : α) :
    getTemperature (setTemperature exp e t) = t
      ∧ (setTemperature exp e t).spinUniforms.BoltzmannWeights.length = 5
      ∧ (∀ e2 : IsingExhibit α,
          (setTemperature exp e2 t).spinUniforms.BoltzmannWeights
            = (setTemperature exp e t).spinUniforms.BoltzmannWeights)
      ∧ (setTemperature exp e t).spinUniforms.checkerboardColor
          = e.spinUniforms.checkerboardColor
      ∧ (setTemperature exp e t).IsingResolution = e.IsingResolution
      ∧ (setTemperature exp e t).textureSpin = e.textureSpin
      ∧ (t ≠ 0 → ∀ i : Nat, i < 5 →
          (setTemperature exp e t).spinUniforms.BoltzmannWeights.getD i 0
            = 4294967295 / (1 + exp (2 * (2 * (i : α) - 4) / t))) := by
  refine ⟨rfl, ?_, fun _ => rfl, rfl, rfl, rfl, ?_⟩
  · simp only [setTemperature]
    rw [weights_eq_map]
    simp
  · intro _ i hi
    exact weights_getD exp e.spinUniforms t hi

/-- C7: for every temperature `t` and every state, `setTemperature(t)` followed by
`getTemperature()` returns `t`; the stored weight table is the one computed from `t`, whatever
the previous temperature and table were (for `t` other than 0 its entries are
`(2^32 - 1) / (1 + exp (2 (2 i - 4) / t))`); and after `init()` alone `getTemperature()` returns
2.27. -/
theorem getTemperature_setTemperature {α : Type} [LinearOrderedField α] [FloorSemiring α]
    (exp : α → α) (e : IsingExhibit α) (t : α) (resolution : Nat) (random : Nat → α) :
    getTemperature (setTemperature exp e t) = t
      ∧ (∀ (previous : α) (W : List α),
          (setTemperature exp
              ⟨e.IsingResolution, ⟨previous, e.spinUniforms.checkerboardColor, W⟩, e.textureSpin⟩
              t).spinUniforms.BoltzmannWeights
            = (setTemperature exp e t).spinUniforms.BoltzmannWeights)
      ∧ (t ≠ 0 →
          (setTemperature exp e t).spinUniforms.BoltzmannWeights
            = (List.range 5).map
                (fun i : Nat => 4294967295 / (1 + exp (2 * (2 * (i : α) - 4) / t))))
      ∧ getTemperature (init exp resolution random) = 2.27 := by
  exact ⟨rfl, fun _ _ => rfl, fun _ => rfl, rfl⟩

/-! ## The driver loop: C8 -/

theorem sweepColors_succ (steps : Nat) : sweepColors (steps + 1) = 0 :: 1 :: sweepColors steps := by
  simp [sweepColors, List.replicate_succ]

theorem sweepColors_length (steps : Nat) : (sweepColors steps).length = 2 * steps := by
  induction steps with
  | zero => rfl
  | succ n ih => rw [sweepColors_succ, List.length_cons, List.length_cons, ih]; omega

theorem sweepColors_getElem? (steps : Nat) :
    ∀ i : Nat, i < 2 * steps → (sweepColors steps)[i]? = some (i % 2) := by
  induction steps with
  | zero => intro i hi; omega
  | succ n ih =>
    intro i hi
    rw [sweepColors_succ]
    match i with
    | 0 => simp
    | 1 => simp
    | k + 2 =>
      rw [List.getElem?_cons_succ, List.getElem?_cons_succ, ih k (by omega)]
      congr 1
      omega

theorem update_eq_dispatches_aux {α : Type} [LinearOrderedField α] [FloorSemiring α]
    (steps : Nat) : ∀ e : IsingExhibit α, update steps e = dispatches (sweepColors steps) e := by
  induction steps with
  | zero => intro e; rfl
  | succ n ih =>
    intro e
    rw [sweepColors_succ]
    show update n (dispatch 1 (dispatch 0 e)) = _
    rw [ih]
    rfl

/-- C8: `update(n)` is the composition of exactly `2 n` dispatches over the whole texture, the
`i`-th of them (from 0) with target colour `i mod 2`, so 0, 1, 0, 1, ..., each one applied to the
state left by the one before; and every cell has the colour of exactly one of the two dispatches
of a sweep. -/
theorem update_eq_dispatches {α : Type} [LinearOrderedField α] [FloorSemiring α]
    (steps : Nat) (e : IsingExhibit α) :
    update steps e = (sweepColors steps).foldl (fun s c => dispatch c s) e
      ∧ (sweepColors steps).length = 2 * steps
      ∧ (∀ i : Nat, i < 2 * steps → (sweepColors steps)[i]? = some (i % 2))
      ∧ sweepColors 1 = [0, 1]
      ∧ (∀ (c : Nat) (s : IsingExhibit α) (x y : Nat), (dispatch c s).textureSpin x y
          = IsingComputefs s.IsingResolution s.spinUniforms.BoltzmannWeights c s.textureSpin x y)
      ∧ (∀ x y : Nat, ∃! c : Nat, c ∈ sweepColors 1 ∧ (x + y) % 2 = c) := by
  refine ⟨update_eq_dispatches_aux steps e, sweepColors_length steps,
    sweepColors_getElem? steps, rfl, fun _ _ _ _ => rfl, ?_⟩
  intro x y
  refine ⟨(x + y) % 2, ⟨?_, rfl⟩, ?_⟩
  · rcases Nat.mod_two_eq_zero_or_one (x + y) with h | h
    · rw [h]; decide
    · rw [h]; decide
  · intro c hc
    exact hc.2.symm

/-! ## The checkerboard on the torus: C9 -/

theorem succ_mod_cases {n y : Nat} (hy : y < n) :
    ((y + 1) % n = y + 1 ∧ y + 1 < n) ∨ ((y + 1) % n = 0 ∧ y + 1 = n) := by
  rcases Nat.lt_or_ge (y + 1) n with h | h
  · exact Or.inl ⟨Nat.mod_eq_of_lt h, h⟩
  · have h1 : y + 1 = n := by omega
    refine Or.inr ⟨?_, h1⟩
    rw [h1, Nat.mod_self]

theorem pred_mod_cases {n y : Nat} (hy : y < n) :
    ((y + n - 1) % n = y - 1 ∧ 0 < y) ∨ ((y + n - 1) % n = n - 1 ∧ y = 0) := by
  rcases Nat.eq_zero_or_pos y with h | h
  · subst h
    refine Or.inr ⟨?_, rfl⟩
    rw [Nat.mod_eq_of_lt (by omega)]; omega
  · have h1 : y + n - 1 = (y - 1) + n := by omega
    refine Or.inl ⟨?_, h⟩
    rw [h1, Nat.add_mod_right, Nat.mod_eq_of_lt (by omega)]

theorem neighbours_eq {resolution x y : Nat} (hx : x < resolution) (hy : y < resolution) :
    neighbours resolution x y
      = [ (x, (y + 1) % resolution), (x, (y + resolution - 1) % resolution),
          ((x + resolution - 1) % resolution, y), ((x + 1) % resolution, y) ] := by
  simp only [neighbours]
  rw [wrap_of_lt hx, wrap_of_lt hy, wrap_succ, wrap_succ, wrap_pred hx, wrap_pred hy]

theorem neighbours_colour {resolution x y : Nat} (heven : resolution % 2 = 0)
    (hx : x < resolution) (hy : y < resolution) :
    ∀ p ∈ neighbours resolution x y,
      p.1 < resolution ∧ p.2 < resolution ∧ (p.1 + p.2) % 2 ≠ (x + y) % 2 := by
  intro p hp
  rw [neighbours_eq hx hy] at hp
  simp only [List.mem_cons, List.mem_singleton, List.not_mem_nil, or_false] at hp
  rcases hp with h | h | h | h
  · subst h
    rcases succ_mod_cases hy with ⟨h1, h2⟩ | ⟨h1, h2⟩ <;> simp only [h1] <;> omega
  · subst h
    rcases pred_mod_cases hy with ⟨h1, h2⟩ | ⟨h1, h2⟩ <;> simp only [h1] <;> omega
  · subst h
    rcases pred_mod_cases hx with ⟨h1, h2⟩ | ⟨h1, h2⟩ <;> simp only [h1] <;> omega
  · subst h
    rcases succ_mod_cases hx with ⟨h1, h2⟩ | ⟨h1, h2⟩ <;> simp only [h1] <;> omega

/-- C9: the code on a torus of odd side. For `N = 3` the cells `(2, 0)` and `(0, 0)` both pass
the colour test of a dispatch for colour 0, and the right neighbour that the kernel reads for
`(2, 0)` is `((2 + 1) mod 3, 0) = (0, 0)`: it has the same colour 0 and is updated in the same
dispatch. For `N = 1` every neighbour of the cell `(0, 0)` is the cell itself. -/
theorem odd_torus_neighbour_same_colour :
    ((2 + 1) % 3, 0) ∈ neighbours 3 2 0
      ∧ ((2 + 1) % 3 + 0) % 2 = (2 + 0) % 2
      ∧ neighbours 1 0 0 = [(0, 0), (0, 0), (0, 0), (0, 0)]
      ∧ fragColor 2 0 = 0 ∧ fragColor 0 0 = 0 := by
  refine ⟨?_, by decide, ?_, by decide, by decide⟩
  · rw [neighbours_eq (show 2 < 3 by decide) (show 0 < 3 by decide)]
    decide
  · rw [neighbours_eq (show 0 < 1 by decide) (show 0 < 1 by decide)]

/-- On a torus of even side the checkerboard separates neighbours: for every even grid size
`N` and every cell `(x, y)` of the `N x N` torus, the
four texels the kernel reads as neighbours are `(x, (y ± 1) mod N)` and `((x ± 1) mod N, y)`,
they are cells of the grid, and each has a colour different from the colour of `(x, y)`; so in a
dispatch with target colour `c` a cell of colour `c` reads only spins of cells that have not the
colour `c`, and the dispatch leaves the spin of each of them unchanged. -/
theorem neighbours_opposite_colour {α : Type} [LinearOrderedField α] [FloorSemiring α]
    (e : IsingExhibit α) (c x y : Nat) (heven : e.IsingResolution % 2 = 0)
    (hx : x < e.IsingResolution) (hy : y < e.IsingResolution) :
    neighbours e.IsingResolution x y
        = [ (x, (y + 1) % e.IsingResolution),
            (x, (y + e.IsingResolution - 1) % e.IsingResolution),
            ((x + e.IsingResolution - 1) % e.IsingResolution, y),
            ((x + 1) % e.IsingResolution, y) ]
      ∧ neighbourSum e.IsingResolution e.textureSpin x y
        = ((neighbours e.IsingResolution x y).map
            (fun p => ⌊(e.textureSpin p.1 p.2).r⌋₊)).sum
      ∧ (∀ p ∈ neighbours e.IsingResolution x y,
          p.1 < e.IsingResolution ∧ p.2 < e.IsingResolution
            ∧ (p.1 + p.2) % 2 ≠ (x + y) % 2)
      ∧ ((x + y) % 2 = c → ∀ p ∈ neighbours e.IsingResolution x y,
          (p.1 + p.2) % 2 ≠ c
            ∧ ((dispatch c e).textureSpin p.1 p.2).r = (e.textureSpin p.1 p.2).r) := by
  refine ⟨neighbours_eq hx hy, ?_, neighbours_colour heven hx hy, ?_⟩
  · rw [neighbours_eq hx hy]
    simp [neighbourSum, Nat.add_assoc]
  · intro hc p hp
    obtain ⟨h1, h2, h3⟩ := neighbours_colour heven hx hy p hp
    rw [hc] at h3
    refine ⟨h3, ?_⟩
    rw [dispatch_textureSpin, IsingComputefs_inactive _ _ c e.textureSpin h1 h2 h3]

/-! ## The generator state 0: C10 -/

section ZeroState

variable {α : Type} [LinearOrderedField α] [FloorSemiring α]

theorem floor_spin_le_one {v : α} (h : v = 0 ∨ v = 1) : ⌊v⌋₊ ≤ 1 := by
  rcases h with h | h
  · rw [h, Nat.floor_zero]; exact Nat.zero_le 1
  · rw [h, Nat.floor_one]

theorem neighbourSum_le_four (e : IsingExhibit α) (hv : SpinsValid e) {x y : Nat}
    (hx : x < e.IsingResolution) (hy : y < e.IsingResolution) :
    neighbourSum e.IsingResolution e.textureSpin x y ≤ 4 := by
  have hN : 0 < e.IsingResolution := by omega
  have h1 := floor_spin_le_one (hv x ((y + 1) % e.IsingResolution) hx (Nat.mod_lt _ hN))
  have h2 := floor_spin_le_one
    (hv x ((y + e.IsingResolution - 1) % e.IsingResolution) hx (Nat.mod_lt _ hN))
  have h3 := floor_spin_le_one
    (hv ((x + e.IsingResolution - 1) % e.IsingResolution) y (Nat.mod_lt _ hN) hy)
  have h4 := floor_spin_le_one (hv ((x + 1) % e.IsingResolution) y (Nat.mod_lt _ hN) hy)
  unfold neighbourSum
  omega

theorem spinsValid_dispatch (c : Nat) (e : IsingExhibit α) (hv : SpinsValid e) :
    SpinsValid (dispatch c e) := by
  intro i j hi hj
  rw [dispatch_resolution] at hi hj
  rw [dispatch_textureSpin]
  by_cases hc : (i + j) % 2 = c
  · rw [IsingComputefs_active _ _ c e.textureSpin hi hj hc]
    dsimp only
    split_ifs
    · exact Or.inl rfl
    · exact Or.inr rfl
  · rw [IsingComputefs_inactive _ _ c e.textureSpin hi hj hc]
    exact hv i j hi hj

theorem step_zero : float32 (747796405 * 0 % 4294967296) % 4294967296 = 0 := by
  rw [show 747796405 * 0 % 4294967296 = 0 by norm_num, float32_of_lt (by norm_num)]

theorem zeroStateInv_dispatch {W : List α} {N x y : Nat} (hx : x < N) (hy : y < N) (c : Nat)
    (e : IsingExhibit α) (h : ZeroStateInv W N x y e) : ZeroStateInv W N x y (dispatch c e) := by
  obtain ⟨hN, hW, h0⟩ := h
  refine ⟨by rw [dispatch_resolution, hN], by rw [dispatch_weights, hW], ?_⟩
  rw [rngState_dispatch c e (by omega) (by omega), h0]
  split_ifs
  · exact step_zero
  · rw [float32_of_lt (by norm_num)]

theorem zeroStateInv_dispatches {W : List α} {N x y : Nat} (hx : x < N) (hy : y < N)
    (colors : List Nat) :
    ∀ e : IsingExhibit α, ZeroStateInv W N x y e → ZeroStateInv W N x y (dispatches colors e) := by
  induction colors with
  | nil => intro e h; exact h
  | cons c cs ih => intro e h; exact ih (dispatch c e) (zeroStateInv_dispatch hx hy c e h)

theorem spinsValid_dispatches (colors : List Nat) :
    ∀ e : IsingExhibit α, SpinsValid e → SpinsValid (dispatches colors e) := by
  induction colors with
  | nil => intro e h; exact h
  | cons c cs ih => intro e h; exact ih (dispatch c e) (spinsValid_dispatch c e h)

theorem zero_state_active_rule {W : List α} {N x y : Nat} (hx : x < N) (hy : y < N)
    (c : Nat) (hc : (x + y) % 2 = c) (e : IsingExhibit α) (h : ZeroStateInv W N x y e) :
    ((dispatch c e).textureSpin x y).r
      = if 0 < fround (W.getD (neighbourSum N e.textureSpin x y) 0) then 0 else 1 := by
  obtain ⟨hN, hWe, h0⟩ := h
  subst hN
  rw [dispatch_textureSpin, IsingComputefs_active _ _ c e.textureSpin hx hy hc, h0, hWe]
  dsimp only
  rw [show 747796405 * 0 % 4294967296 = 0 by norm_num, float32_of_lt (by norm_num),
    Nat.cast_zero]

theorem zero_state_active_spin {W : List α} {N x y : Nat} (hx : x < N) (hy : y < N)
    (hW : ∀ i : Nat, i < 5 → 0 < fround (W.getD i 0)) (c : Nat) (hc : (x + y) % 2 = c)
    (e : IsingExhibit α) (h : ZeroStateInv W N x y e) (hv : SpinsValid e) :
    ((dispatch c e).textureSpin x y).r = 0 := by
  rw [zero_state_active_rule hx hy c hc e h]
  have hN := h.1
  subst hN
  have hn := neighbourSum_le_four e hv hx hy
  rw [if_pos (hW _ (by omega))]

theorem zero_state_spin_dispatch {W : List α} {N x y : Nat} (hx : x < N) (hy : y < N)
    (hW : ∀ i : Nat, i < 5 → 0 < fround (W.getD i 0)) (c : Nat)
    (e : IsingExhibit α) (h : ZeroStateInv W N x y e) (hv : SpinsValid e)
    (hq : (e.textureSpin x y).r = 0 ∨ (x + y) % 2 = c) :
    ((dispatch c e).textureSpin x y).r = 0 := by
  by_cases hc : (x + y) % 2 = c
  · exact zero_state_active_spin hx hy hW c hc e h hv
  · rw [dispatch_textureSpin,
      IsingComputefs_inactive _ _ c e.textureSpin (by rw [h.1]; exact hx) (by rw [h.1]; exact hy) hc]
    rcases hq with hq | hq
    · exact hq
    · exact absurd hq hc

theorem zero_state_spin_dispatches {W : List α} {N x y : Nat} (hx : x < N) (hy : y < N)
    (hW : ∀ i : Nat, i < 5 → 0 < fround (W.getD i 0)) (colors : List Nat) :
    ∀ e : IsingExhibit α, ZeroStateInv W N x y e → SpinsValid e →
      ((e.textureSpin x y).r = 0 ∨ (x + y) % 2 ∈ colors) →
      ((dispatches colors e).textureSpin x y).r = 0 := by
  induction colors with
  | nil =>
    intro e _ _ hq
    rcases hq with hq | hq
    · exact hq
    · exact absurd hq (List.not_mem_nil _)
  | cons c cs ih =>
    intro e h hv hq
    apply ih (dispatch c e) (zeroStateInv_dispatch hx hy c e h) (spinsValid_dispatch c e hv)
    rcases hq with hq | hq
    · exact Or.inl (zero_state_spin_dispatch hx hy hW c e h hv (Or.inl hq))
    · rcases List.mem_cons.mp hq with hq | hq
      · exact Or.inl (zero_state_spin_dispatch hx hy hW c e h hv (Or.inr hq))
      · exact Or.inr hq

theorem colour_mem_sweepColors (x y n : Nat) (hn : 0 < n) : (x + y) % 2 ∈ sweepColors n := by
  obtain ⟨m, rfl⟩ : ∃ m, n = m + 1 := ⟨n - 1, by omega⟩
  rw [sweepColors_succ]
  rcases Nat.mod_two_eq_zero_or_one (x + y) with h | h
  · rw [h]; exact List.mem_cons_self _ _
  · rw [h]; exact List.mem_cons_of_mem _ (List.mem_cons_self _ _)

end ZeroState

theorem float_weights_pos (u : SpinUniforms ℝ) (t : ℝ) (ht : 0.07 ≤ t) :
    ∀ i : Nat, i < 5 →
      0 < fround ((setTemperatureUniforms Real.exp u t).BoltzmannWeights.getD i 0) := by
  intro i hi
  rw [weights_getD Real.exp u t hi]
  exact fround_pos (weight_normal t ht hi)

/-- C10, as stated, fails: at the temperature 0.05 the weight
`(2^32 - 1) / (1 + exp (2 (2*4 - 4) / 0.05))` is below half of the smallest positive 32-bit
float, so the shader reads `weight[4] = 0`; on a 4 x 4 grid with every spin 1 and every
generator state 0, the dispatch for colour 0 finds the draw 0 not below `weight[4]` and writes
the spin 1 into the cell `(0, 0)`. -/
theorem zero_state_spin_one_at_low_temperature :
    (0 : ℝ) < 0.05
      ∧ rngState ((⟨1, 0, 0, 1⟩ : Texel ℝ)) = 0
      ∧ (0 + 0) % 2 = 0
      ∧ fround ((setTemperatureUniforms Real.exp ⟨2.27, 1, []⟩
            (0.05 : ℝ)).BoltzmannWeights.getD 4 0) = 0
      ∧ ((dispatch 0 (setTemperature Real.exp
            ⟨4, ⟨2.27, 1, []⟩, fun _ _ => ⟨1, 0, 0, 1⟩⟩ (0.05 : ℝ))).textureSpin 0 0).r = 1 := by
  have h0 : rngState ((⟨1, 0, 0, 1⟩ : Texel ℝ)) = 0 := by simp [rngState, uint]
  have hw : fround ((setTemperatureUniforms Real.exp ⟨2.27, 1, []⟩
      (0.05 : ℝ)).BoltzmannWeights.getD 4 0) = 0 := by
    rw [weights_getD Real.exp _ _ (show 4 < 5 by decide)]
    exact fround_of_small (by positivity) weight_underflow
  refine ⟨by norm_num, h0, by decide, hw, ?_⟩
  have hinv : ZeroStateInv
      (setTemperatureUniforms Real.exp ⟨2.27, 1, []⟩ (0.05 : ℝ)).BoltzmannWeights 4 0 0
      (setTemperature Real.exp ⟨4, ⟨2.27, 1, []⟩, fun _ _ => ⟨1, 0, 0, 1⟩⟩ (0.05 : ℝ)) :=
    ⟨rfl, rfl, h0⟩
  rw [zero_state_active_rule (show 0 < 4 by decide) (show 0 < 4 by decide) 0
    (show (0 + 0) % 2 = 0 by decide) _ hinv]
  have hn : neighbourSum 4 (setTemperature Real.exp
      ⟨4, ⟨2.27, 1, []⟩, fun _ _ => ⟨1, 0, 0, 1⟩⟩ (0.05 : ℝ)).textureSpin 0 0 = 4 := by
    simp [neighbourSum, setTemperature]
  rw [hn, hw]
  simp

/-- C10 (amended): the generator state 0 is absorbing. For every temperature `t > 0`, with the
weight table that `setTemperature(t)` stores, every grid and every cell `(x, y)` of it whose
generator state is 0: after any sequence of dispatches, and after `update(n)`, the generator
state of the cell is still 0, and a further dispatch whose target colour is the colour of the
cell sets its spin to 0 when the weight the shader reads for the neighbour sum, a 32-bit float,
is positive, and to 1 when that weight is 0. For `t >= 0.07` the five weights are positive as
32-bit floats, so that on a grid whose spins are 0 or 1 every such dispatch sets the spin to 0,
and the spin is 0 after `update(n)` for `n >= 1`. -/
theorem zero_state_absorbing (t : ℝ) (ht : 0 < t) (e : IsingExhibit ℝ) (x y : Nat)
    (hx : x < e.IsingResolution) (hy : y < e.IsingResolution)
    (h0 : rngState (e.textureSpin x y) = 0) :
    (∀ colors : List Nat,
        rngState ((dispatches colors (setTemperature Real.exp e t)).textureSpin x y) = 0
          ∧ ∀ c : Nat, (x + y) % 2 = c →
              ((dispatch c (dispatches colors (setTemperature Real.exp e t))).textureSpin
                x y).r
                = if 0 < fround ((setTemperature Real.exp e t).spinUniforms.BoltzmannWeights.getD
                      (neighbourSum e.IsingResolution
                        (dispatches colors (setTemperature Real.exp e t)).textureSpin x y) 0)
                  then 0 else 1)
      ∧ (∀ n : Nat, rngState ((update n (setTemperature Real.exp e t)).textureSpin x y) = 0)
      ∧ (0.07 ≤ t → SpinsValid e →
          (∀ i : Nat, i < 5 →
              0 < fround ((setTemperature Real.exp e t).spinUniforms.BoltzmannWeights.getD i 0))
            ∧ (∀ (colors : List Nat) (c : Nat), (x + y) % 2 = c →
                ((dispatch c (dispatches colors (setTemperature Real.exp e t))).textureSpin
                  x y).r = 0)
            ∧ (∀ n : Nat, 0 < n →
                ((update n (setTemperature Real.exp e t)).textureSpin x y).r = 0)) := by
  have _ := ht
  have hinv : ZeroStateInv (setTemperatureUniforms Real.exp e.spinUniforms t).BoltzmannWeights
      e.IsingResolution x y (setTemperature Real.exp e t) := ⟨rfl, rfl, h0⟩
  refine ⟨?_, ?_, ?_⟩
  · intro colors
    have hi := zeroStateInv_dispatches hx hy colors _ hinv
    exact ⟨hi.2.2, fun c hc => zero_state_active_rule hx hy c hc _ hi⟩
  · intro n
    rw [update_eq_dispatches_aux]
    exact (zeroStateInv_dispatches hx hy (sweepColors n) _ hinv).2.2
  · intro ht hv
    have hW := float_weights_pos e.spinUniforms t ht
    have hv' : SpinsValid (setTemperature Real.exp e t) := hv
    refine ⟨hW, ?_, ?_⟩
    · intro colors c hc
      exact zero_state_active_spin hx hy hW c hc _
        (zeroStateInv_dispatches hx hy colors _ hinv) (spinsValid_dispatches colors _ hv')
    · intro n hn
      rw [update_eq_dispatches_aux]
      exact zero_state_spin_dispatches hx hy hW (sweepColors n) _ hinv hv'
        (Or.inr (colour_mem_sweepColors x y n hn))

/-! ## Instances on concrete inputs -/

theorem float32State_constTexture_one (x y : Nat) : Float32State (constTexture 1 x y) := by
  have h1 : rngState (constTexture 1 x y) = 1 := by
    have := rngState_constTexture (show 1 < 4294967296 by norm_num) x y
    simpa using this
  unfold Float32State
  rw [h1]
  exact float32_of_lt (by norm_num)

theorem inactive_cell_written_back_witness :
    (0 + 1) % 2 ≠ 0
      ∧ Float32State (constTexture 1 0 1)
      ∧ (IsingComputefs 4 flatWeights 0 (constTexture 1) 0 1).r = (constTexture 1 0 1).r
      ∧ rngState (IsingComputefs 4 flatWeights 0 (constTexture 1) 0 1)
          = rngState (constTexture 1 0 1) :=
  ⟨by decide, float32State_constTexture_one 0 1,
    (inactive_cell_written_back 4 flatWeights 0 (constTexture 1) 0 1
      (by decide) (by decide) (by decide)).2.1,
    (inactive_cell_written_back 4 flatWeights 0 (constTexture 1) 0 1
      (by decide) (by decide) (by decide)).2.2 (float32State_constTexture_one 0 1)⟩

theorem spin_kept_on_inactive_cell_witness :
    (0 + 1) % 2 ≠ 0
      ∧ (IsingComputefs 4 flatWeights 0 (constTexture 1) 0 1).r = (constTexture 1 0 1).r
      ∧ ((dispatch 0 ⟨4, ⟨1, 1, flatWeights⟩, constTexture 1⟩).textureSpin 0 1).r
          = (constTexture 1 0 1).r :=
  ⟨by decide,
    (spin_kept_on_inactive_cell 4 flatWeights 0 (constTexture 1)
      ⟨4, ⟨1, 1, flatWeights⟩, constTexture 1⟩ 0 1 (by decide)).1 (by decide) (by decide),
    (spin_kept_on_inactive_cell 4 flatWeights 0 (constTexture 1)
      ⟨4, ⟨1, 1, flatWeights⟩, constTexture 1⟩ 0 1 (by decide)).2 (by decide) (by decide)⟩

theorem rng_state_after_sweep_witness :
    Float32State (constTexture 1 0 0)
      ∧ rngState (constTexture 1 0 0) % 1073741824 ≠ 0
      ∧ rngState ((update 1 ⟨4, ⟨1, 1, flatWeights⟩, constTexture 1⟩).textureSpin 0 0)
          ≠ rngState (constTexture 1 0 0) :=
  have h1 : rngState (constTexture 1 0 0) % 1073741824 ≠ 0 := by
    have := rngState_constTexture (show 1 < 4294967296 by norm_num) 0 0
    simp only [Nat.cast_one] at this
    rw [this]
    decide
  ⟨float32State_constTexture_one 0 0, h1,
    (rng_state_after_sweep ⟨4, ⟨1, 1, flatWeights⟩, constTexture 1⟩ 0 0
      (by decide) (by decide) (float32State_constTexture_one 0 0)).1 h1⟩

theorem weights_antitone_and_middle_witness :
    (0 : ℝ) < 1
      ∧ (setTemperatureUniforms Real.exp ⟨2.27, 1, []⟩ 1).BoltzmannWeights.getD 2 0
          = 4294967295 / 2
      ∧ (setTemperatureUniforms Real.exp ⟨2.27, 1, []⟩ 1).BoltzmannWeights.getD 4 0
          ≤ (setTemperatureUniforms Real.exp ⟨2.27, 1, []⟩ 1).BoltzmannWeights.getD 0 0 :=
  ⟨one_pos,
    (weights_antitone_and_middle ⟨2.27, 1, []⟩ 1 one_pos).2.2.2.1,
    (weights_antitone_and_middle ⟨2.27, 1, []⟩ 1 one_pos).2.2.1 0 4 (by decide) (by decide)⟩

theorem setTemperature_total_witness :
    getTemperature (setTemperature Real.exp (init Real.exp 4 (fun _ => 0)) (-1)) = -1
      ∧ (setTemperature Real.exp (init Real.exp 4 (fun _ => 0))
            (-1)).spinUniforms.BoltzmannWeights.getD 0 0
          = 4294967295 / (1 + Real.exp (2 * (2 * ((0 : Nat) : ℝ) - 4) / (-1))) :=
  ⟨(setTemperature_total Real.exp (init Real.exp 4 (fun _ => 0)) (-1)).1,
    (setTemperature_total Real.exp (init Real.exp 4 (fun _ => 0)) (-1)).2.2.2.2.2.2
      (by norm_num) 0 (by decide)⟩

theorem getTemperature_setTemperature_witness :
    getTemperature (setTemperature Real.exp (init Real.exp 4 (fun _ => 0)) 1) = 1
      ∧ (setTemperature Real.exp (init Real.exp 4 (fun _ => 0)) 1).spinUniforms.BoltzmannWeights
          = (List.range 5).map
              (fun i : Nat => 4294967295 / (1 + Real.exp (2 * (2 * (i : ℝ) - 4) / 1)))
      ∧ getTemperature (init Real.exp 4 (fun _ => (0 : ℝ))) = 2.27 :=
  ⟨(getTemperature_setTemperature Real.exp (init Real.exp 4 (fun _ => 0)) 1 4 (fun _ => 0)).1,
    (getTemperature_setTemperature Real.exp (init Real.exp 4 (fun _ => 0)) 1 4
      (fun _ => 0)).2.2.1 one_ne_zero,
    (getTemperature_setTemperature Real.exp (init Real.exp 4 (fun _ => 0)) 1 4
      (fun _ => 0)).2.2.2⟩

theorem update_eq_dispatches_witness :
    update 2 (⟨4, ⟨1, 1, flatWeights⟩, constTexture 1⟩ : IsingExhibit ℚ)
        = (sweepColors 2).foldl (fun s c => dispatch c s) ⟨4, ⟨1, 1, flatWeights⟩, constTexture 1⟩
      ∧ (sweepColors 2)[3]? = some (3 % 2) :=
  ⟨(update_eq_dispatches 2 ⟨4, ⟨1, 1, flatWeights⟩, constTexture 1⟩).1,
    (update_eq_dispatches 2 (⟨4, ⟨1, 1, flatWeights⟩, constTexture 1⟩ : IsingExhibit ℚ)).2.2.1
      3 (by decide)⟩

theorem neighbours_opposite_colour_witness :
    4 % 2 = 0
      ∧ neighbours 4 3 0 = [(3, (0 + 1) % 4), (3, (0 + 4 - 1) % 4), ((3 + 4 - 1) % 4, 0),
          ((3 + 1) % 4, 0)]
      ∧ ((dispatch 1 ⟨4, ⟨1, 1, flatWeights⟩, constTexture 1⟩).textureSpin 0 0).r
          = (constTexture 1 0 0).r :=
  ⟨by decide,
    (neighbours_opposite_colour ⟨4, ⟨1, 1, flatWeights⟩, constTexture 1⟩ 1 3 0
      (by decide) (by decide) (by decide)).1,
    ((neighbours_opposite_colour ⟨4, ⟨1, 1, flatWeights⟩, constTexture 1⟩ 1 3 0
      (by decide) (by decide) (by decide)).2.2.2 (by decide) (0, 0)
        (by
          rw [neighbours_eq (show 3 < 4 by decide) (show 0 < 4 by decide)]
          decide)).2⟩

theorem zero_state_absorbing_witness :
    (0.07 : ℝ) ≤ 1
      ∧ rngState ((init Real.exp 4 (fun _ => (0 : ℝ))).textureSpin 0 0) = 0
      ∧ rngState ((update 3 (setTemperature Real.exp (init Real.exp 4 (fun _ => 0))
            1)).textureSpin 0 0) = 0
      ∧ ((update 3 (setTemperature Real.exp (init Real.exp 4 (fun _ => 0))
            1)).textureSpin 0 0).r = 0 :=
  have hv : SpinsValid (init Real.exp 4 (fun _ => (0 : ℝ))) := by
    intro i j _ _
    left
    have hf : ⌊(0 : ℝ) + 1 / 2⌋₊ = 0 := Nat.floor_eq_zero.2 (by norm_num)
    simp only [init, setTemperature, initialSpin, hf, Nat.cast_zero]
    exact fround_zero
  have h0 : rngState ((init Real.exp 4 (fun _ => (0 : ℝ))).textureSpin 0 0) = 0 := by
    simp [init, setTemperature, initialSpin, rngState, uint, fround_zero]
  have ht : (0.07 : ℝ) ≤ 1 := by norm_num
  ⟨ht, h0,
    (zero_state_absorbing 1 one_pos (init Real.exp 4 (fun _ => 0)) 0 0
      (by decide) (by decide) h0).2.1 3,
    ((zero_state_absorbing 1 one_pos (init Real.exp 4 (fun _ => 0)) 0 0
      (by decide) (by decide) h0).2.2 ht hv).2.2 3 (by decide)⟩

end Ising
